import Mathlib

/-
Verification of the IP-resolver tool (ipre.go) against its specification.

The program is shallowly embedded: each Go function of ipre.go becomes a Lean
definition of the same name, machine strings are Lean strings, the external
DNS exchange (`client.Exchange` of the miekg/dns library) is an oracle
parameter, and the per-goroutine slot array of `query` is the index-aligned
list it deterministically produces once `wg.Wait()` returns.
-/

set_option maxRecDepth 8000

namespace IPre

/-- A name server entry: ipre.go lines 22-25, `DnsAddr { Name, Address string }`. -/
structure DnsAddr where
  name : String
  address : String
  deriving DecidableEq

/-- One per-server query result: ipre.go lines 29-33,
`Answer { DnsAddr; IP []string; Error error }`. The Go `error` field (nil or an
error value) is modelled as `Option String`, carrying the error message. -/
structure Answer where
  dnsAddr : DnsAddr
  ip : List String
  error : Option String
  deriving DecidableEq

/-- A resource record of a DNS reply, as far as ipre.go consumes it
(lines 99-103): an A record carrying its four address bytes, or anything else. -/
inductive RR where
  | A (b1 b2 b3 b4 : Fin 256)
  | other
  deriving DecidableEq

/-- `t.A.String()` (ipre.go line 101) for a 4-byte IPv4 address: net.IP.String
prints dotted decimal with no leading zeros, `Nat.repr` of each byte. -/
def ipv4String (b1 b2 b3 b4 : Fin 256) : String :=
  Nat.repr b1.val ++ "." ++ Nat.repr b2.val ++ "." ++ Nat.repr b3.val ++ "." ++ Nat.repr b4.val

/-- The loop of ipre.go lines 99-103: collect `t.A.String()` for every A record
of the reply, in reply order. -/
def extractA : List RR → List String
  | [] => []
  | RR.A b1 b2 b3 b4 :: rest => ipv4String b1 b2 b3 b4 :: extractA rest
  | RR.other :: rest => extractA rest

/-- The oracle standing for `client.Exchange` (ipre.go line 94): given the
transport mode, the domain and the `nameserver:port` address, the reply's
records or a transport/protocol error message. The 3-second timeout only
configures the client, so it is folded into the oracle's behaviour. -/
abbrev Exchange := String → String → String → Except String (List RR)

/-- ipre.go line 80: the error text returned for an invalid transport mode. -/
def netErrMsg : String := "The Parameter 'net' should only be 'tcp' or 'udp'."

/-- ipre.go lines 76-106, `ARecords`: reject an invalid transport mode before
any exchange is issued, otherwise ask the exchange and extract the A records. -/
def ARecords (ex : Exchange) (domain nameserver : String) (port : Nat) (net : String) :
    Except String (List String) :=
  if net ≠ "tcp" ∧ net ≠ "udp" then
    Except.error netErrMsg
  else
    match ex net domain (nameserver ++ ":" ++ Nat.repr port) with
    | Except.error e => Except.error e
    | Except.ok rrs => Except.ok (extractA rrs)

/-- The body of one goroutine of `query` (ipre.go lines 122-137): the answer for
one name server, from the outcome of `ARecords`. -/
def mkAnswer (d : DnsAddr) (res : Except String (List String)) : Answer :=
  match res with
  | Except.error err => { dnsAddr := d, ip := [], error := some err }
  | Except.ok ip =>
    if ip.length = 0 then { dnsAddr := d, ip := [], error := some "No result" }
    else { dnsAddr := d, ip := ip, error := none }

/-- ipre.go lines 117-142, `query`: one answer per name server. Each goroutine
writes only slot `n` of the pre-allocated answer array and the array is read
after `wg.Wait()`, so the fan-out round is the index-aligned map. -/
def query (ex : Exchange) (dns : List DnsAddr) (domain net : String) : List Answer :=
  dns.map (fun d => mkAnswer d (ARecords ex domain d.address 53 net))

theorem mkAnswer_dnsAddr (d : DnsAddr) (res : Except String (List String)) :
    (mkAnswer d res).dnsAddr = d := by
  cases res with
  | error e => rfl
  | ok ip =>
    simp only [mkAnswer]
    split <;> rfl

theorem query_len (ex : Exchange) (dns : List DnsAddr) (domain net : String) :
    (query ex dns domain net).length = dns.length := by
  simp [query]

/-- C1: the fan-out engine returns exactly one result per configured name
server, and the result in slot `i` carries the name server at position `i` of
the input list. -/
theorem query_alignment (ex : Exchange) (dns : List DnsAddr) (domain net : String) :
    (query ex dns domain net).length = dns.length ∧
    ∀ (i : Nat) (h1 : i < (query ex dns domain net).length) (h2 : i < dns.length),
      ((query ex dns domain net)[i]).dnsAddr = dns[i] := by
  refine ⟨query_len ex dns domain net, fun i h1 h2 => ?_⟩
  simp [query, mkAnswer_dnsAddr]

/-- C1 witness: the alignment at a concrete two-server round. -/
theorem query_alignment_witness :
    ((query (fun _ _ _ => Except.ok [RR.A 1 2 3 4])
        [⟨"AliDNS", "223.5.5.5"⟩, ⟨"Google", "8.8.8.8"⟩] "example.com" "udp").length = 2) ∧
    ((query (fun _ _ _ => Except.ok [RR.A 1 2 3 4])
        [⟨"AliDNS", "223.5.5.5"⟩, ⟨"Google", "8.8.8.8"⟩] "example.com" "udp").get
      ⟨1, by decide⟩).dnsAddr = ⟨"Google", "8.8.8.8"⟩ := by
  have h := query_alignment (fun _ _ _ => Except.ok [RR.A 1 2 3 4])
    [⟨"AliDNS", "223.5.5.5"⟩, ⟨"Google", "8.8.8.8"⟩] "example.com" "udp"
  exact ⟨h.1, h.2 1 (by decide) (by decide)⟩

/-- C3: a per-server query that completes without a transport error but yields
zero A records is normalized to a `No result` error with empty ips, never a
silently empty success; every answer has either non-empty ips and no error, or
an error (`error ≠ none`, the Go `Error != nil`) and empty ips. -/
theorem query_no_silent_empty (ex : Exchange) (dns : List DnsAddr) (domain net : String) :
    (∀ ans ∈ query ex dns domain net,
        (ans.error = none ∧ ans.ip ≠ []) ∨ ((∃ e, ans.error = some e) ∧ ans.ip = [])) ∧
    (∀ (i : Nat) (h1 : i < (query ex dns domain net).length) (h2 : i < dns.length),
        ARecords ex domain (dns[i]).address 53 net = Except.ok [] →
        (query ex dns domain net)[i] = ⟨dns[i], [], some "No result"⟩) := by
  constructor
  · intro ans hans
    simp only [query, List.mem_map] at hans
    obtain ⟨d, -, rfl⟩ := hans
    cases hr : ARecords ex domain d.address 53 net with
    | error e => exact Or.inr ⟨⟨e, by simp [mkAnswer, hr]⟩, by simp [mkAnswer, hr]⟩
    | ok ips =>
      by_cases hl : ips.length = 0
      · exact Or.inr ⟨⟨"No result", by simp [mkAnswer, hr, hl]⟩, by simp [mkAnswer, hr, hl]⟩
      · refine Or.inl ⟨by simp [mkAnswer, hr, hl], ?_⟩
        simp only [mkAnswer, hr, hl, if_false]
        exact fun hnil => hl (by simp [hnil])
  · intro i h1 h2 hAR
    simp only [query, List.getElem_map]
    rw [hAR]
    rfl

/-- C3 witness: a reply with no A record at a concrete one-server round. -/
theorem query_no_silent_empty_witness :
    (query (fun _ _ _ => Except.ok [RR.other]) [⟨"G", "8.8.8.8"⟩] "example.com" "udp").get
      ⟨0, by decide⟩ = ⟨⟨"G", "8.8.8.8"⟩, [], some "No result"⟩ := by
  have h := (query_no_silent_empty (fun _ _ _ => Except.ok [RR.other])
    [⟨"G", "8.8.8.8"⟩] "example.com" "udp").2 0 (by decide) (by decide) rfl
  exact h

theorem ARecords_invalid_net (ex : Exchange) (domain nameserver : String) (port : Nat)
    (net : String) (h1 : net ≠ "tcp") (h2 : net ≠ "udp") :
    ARecords ex domain nameserver port net = Except.error netErrMsg := by
  simp [ARecords, h1, h2]

/-- C7: the engine never raises a per-server failure to its caller: `query`
always returns the full answer list (it has no failure path at all), each
`ARecords` failure is stored as data in the slot's `Answer.error`; an invalid
transport mode (neither tcp nor udp) is rejected inside `ARecords` before any
exchange is issued, so in that case the round is independent of the exchange
oracle and every slot carries the mode error. -/
theorem query_failures_as_data (ex ex2 : Exchange) (dns : List DnsAddr) (domain net : String) :
    ((query ex dns domain net).length = dns.length) ∧
    (∀ (i : Nat) (h1 : i < (query ex dns domain net).length) (h2 : i < dns.length) (e : String),
        ARecords ex domain (dns[i]).address 53 net = Except.error e →
        (query ex dns domain net)[i] = ⟨dns[i], [], some e⟩) ∧
    (net ≠ "tcp" → net ≠ "udp" →
        query ex dns domain net = dns.map (fun d => ⟨d, [], some netErrMsg⟩) ∧
        query ex dns domain net = query ex2 dns domain net) := by
  refine ⟨query_len ex dns domain net, ?_, ?_⟩
  · intro i h1 h2 e hAR
    simp only [query, List.getElem_map]
    rw [hAR]
    rfl
  · intro htcp hudp
    constructor
    · simp only [query]
      refine List.map_congr_left fun d _ => ?_
      rw [ARecords_invalid_net ex domain d.address 53 net htcp hudp, mkAnswer]
    · simp only [query]
      refine List.map_congr_left fun d _ => ?_
      rw [ARecords_invalid_net ex domain d.address 53 net htcp hudp,
        ARecords_invalid_net ex2 domain d.address 53 net htcp hudp]

/-- C7 witness: an erroring oracle at one server, and an invalid mode round. -/
theorem query_failures_as_data_witness :
    ((query (fun _ _ _ => Except.error "i/o timeout") [⟨"G", "8.8.8.8"⟩] "example.com" "udp").get
      ⟨0, by decide⟩ = ⟨⟨"G", "8.8.8.8"⟩, [], some "i/o timeout"⟩) ∧
    query (fun _ _ _ => Except.error "i/o timeout") [⟨"G", "8.8.8.8"⟩] "example.com" "icmp" =
      [⟨⟨"G", "8.8.8.8"⟩, [], some netErrMsg⟩] := by
  constructor
  · exact (query_failures_as_data (fun _ _ _ => Except.error "i/o timeout")
      (fun _ _ _ => Except.error "x") [⟨"G", "8.8.8.8"⟩] "example.com" "udp").2.1
      0 (by decide) (by decide) "i/o timeout" rfl
  · exact ((query_failures_as_data (fun _ _ _ => Except.error "i/o timeout")
      (fun _ _ _ => Except.error "x") [⟨"G", "8.8.8.8"⟩] "example.com" "icmp").2.2
      (by decide) (by decide)).1

/-! ## The union IP set (`allIP`, ipre.go lines 146-164)

Go compares strings byte-wise; on the ASCII strings in play this is the
character-wise lexicographic order, modelled by `charsLt`/`charsLe` below.
`sort.Strings` (line 161) sorts ascending in that order; any comparison sort
produces the same list, so it is modelled by insertion sort over `strLe`.
The `map[string]bool` of lines 149-159 only retains the set of distinct IPs
(its iteration order is irrelevant after sorting), modelled by `dedup`. -/

/-- Strict byte-wise lexicographic order on character lists (Go `<` on strings). -/
def charsLt : List Char → List Char → Bool
  | [], [] => false
  | [], _ :: _ => true
  | _ :: _, [] => false
  | a :: as, b :: bs => if a < b then true else if b < a then false else charsLt as bs

/-- Byte-wise lexicographic order on character lists (Go `<=` on strings). -/
def charsLe : List Char → List Char → Bool
  | [], _ => true
  | _ :: _, [] => false
  | a :: as, b :: bs => if a < b then true else if b < a then false else charsLe as bs

/-- Go string `<`, on the characters. -/
def strLt (s t : String) : Bool := charsLt s.toList t.toList

/-- Go string `<=`, on the characters. -/
def strLe (s t : String) : Bool := charsLe s.toList t.toList

theorem charsLe_total : ∀ as bs : List Char, charsLe as bs = true ∨ charsLe bs as = true
  | [], _ => Or.inl rfl
  | _ :: _, [] => Or.inr rfl
  | a :: as, b :: bs => by
    by_cases hab : a < b
    · exact Or.inl (by simp [charsLe, hab])
    · by_cases hba : b < a
      · exact Or.inr (by simp [charsLe, hba])
      · rcases charsLe_total as bs with h | h
        · exact Or.inl (by simp [charsLe, hab, hba, h])
        · exact Or.inr (by simp [charsLe, hab, hba, h])

theorem charsLe_trans : ∀ as bs cs : List Char,
    charsLe as bs = true → charsLe bs cs = true → charsLe as cs = true
  | [], _, _, _, _ => rfl
  | _ :: _, [], _, h1, _ => by simp [charsLe] at h1
  | _ :: _, _ :: _, [], _, h2 => by simp [charsLe] at h2
  | a :: as, b :: bs, c :: cs, h1, h2 => by
    simp only [charsLe] at h1 h2 ⊢
    by_cases hab : a < b
    · by_cases hbc : b < c
      · simp [lt_trans hab hbc]
      · by_cases hcb : c < b
        · simp [hbc, hcb] at h2
        · have hbceq : b = c := le_antisymm (not_lt.mp hcb) (not_lt.mp hbc)
          subst hbceq
          simp [hab]
    · by_cases hba : b < a
      · simp [hab, hba] at h1
      · have habeq : a = b := le_antisymm (not_lt.mp hba) (not_lt.mp hab)
        subst habeq
        simp only [lt_irrefl, if_false] at h1 ⊢
        by_cases hac : a < c
        · simp [hac]
        · by_cases hca : c < a
          · simp [hac, hca] at h2
          · simp only [hac, hca, if_false] at h2 ⊢
            exact charsLe_trans as bs cs h1 h2

theorem charsLt_of_le_of_ne : ∀ as bs : List Char,
    charsLe as bs = true → as ≠ bs → charsLt as bs = true
  | [], [], _, hne => absurd rfl hne
  | [], _ :: _, _, _ => rfl
  | _ :: _, [], h, _ => by simp [charsLe] at h
  | a :: as, b :: bs, h, hne => by
    simp only [charsLe] at h
    simp only [charsLt]
    by_cases hab : a < b
    · simp [hab]
    · by_cases hba : b < a
      · simp [hab, hba] at h
      · have habeq : a = b := le_antisymm (not_lt.mp hba) (not_lt.mp hab)
        subst habeq
        simp only [lt_irrefl, if_false] at h ⊢
        exact charsLt_of_le_of_ne as bs h (fun hh => hne (by rw [hh]))

theorem strLe_trans (x y z : String) : strLe x y = true → strLe y z = true → strLe x z = true :=
  charsLe_trans _ _ _

theorem strLt_of_le_of_ne (x y : String) (h : strLe x y = true) (hne : x ≠ y) :
    strLt x y = true :=
  charsLt_of_le_of_ne _ _ h fun hl => hne (String.toList_inj.mp hl)

theorem strLe_total (x y : String) : strLe x y = true ∨ strLe y x = true :=
  charsLe_total _ _

/-- One insertion step of the sort modelling `sort.Strings`. -/
def insertStr (x : String) : List String → List String
  | [] => [x]
  | y :: ys => if strLe x y then x :: y :: ys else y :: insertStr x ys

/-- Ascending sort in Go's string order, modelling `sort.Strings` (line 161). -/
def sortStrings : List String → List String
  | [] => []
  | x :: xs => insertStr x (sortStrings xs)

theorem insertStr_perm (x : String) : ∀ l : List String, List.Perm (insertStr x l) (x :: l)
  | [] => List.Perm.refl _
  | y :: ys => by
    simp only [insertStr]
    split
    · exact List.Perm.refl _
    · exact ((insertStr_perm x ys).cons y).trans (List.Perm.swap x y ys)

theorem sortStrings_perm : ∀ l : List String, List.Perm (sortStrings l) l
  | [] => List.Perm.refl _
  | x :: xs => (insertStr_perm x (sortStrings xs)).trans ((sortStrings_perm xs).cons x)

theorem insertStr_pairwise (x : String) : ∀ l : List String,
    l.Pairwise (fun p q => strLe p q = true) →
    (insertStr x l).Pairwise (fun p q => strLe p q = true)
  | [], _ => by simp [insertStr]
  | y :: ys, hp => by
    simp only [insertStr]
    by_cases hxy : strLe x y = true
    · simp only [hxy, if_true]
      refine List.Pairwise.cons ?_ hp
      intro z hz
      rcases List.mem_cons.mp hz with rfl | hz'
      · exact hxy
      · exact strLe_trans x y z hxy (List.rel_of_pairwise_cons hp hz')
    · simp only [hxy, if_false]
      have hyx : strLe y x = true := (strLe_total x y).resolve_left hxy
      refine List.Pairwise.cons ?_ (insertStr_pairwise x ys hp.of_cons)
      intro z hz
      rcases List.mem_cons.mp ((insertStr_perm x ys).mem_iff.mp hz) with rfl | hz'
      · exact hyx
      · exact List.rel_of_pairwise_cons hp hz'

theorem sortStrings_pairwise : ∀ l : List String,
    (sortStrings l).Pairwise (fun p q => strLe p q = true)
  | [] => List.Pairwise.nil
  | x :: xs => insertStr_pairwise x (sortStrings xs) (sortStrings_pairwise xs)

/-- ipre.go lines 146-164, `allIP`: the distinct IPs of all answers, sorted
ascending in Go's string order. -/
def allIP (a : List Answer) : List String :=
  sortStrings ((a.map Answer.ip).flatten.dedup)

/-- C2: the union IP set contains exactly the IP strings of the results'
`ips` lists, with no repetition, strictly ascending in the byte-wise
lexicographic string order (`strLt` models Go string `<`). -/
theorem allIP_spec (a : List Answer) :
    (∀ x, x ∈ allIP a ↔ ∃ r ∈ a, x ∈ r.ip) ∧
    (allIP a).Nodup ∧
    (allIP a).Pairwise (fun x y => strLt x y = true) := by
  have hperm := sortStrings_perm ((a.map Answer.ip).flatten.dedup)
  have hnd : (allIP a).Nodup := hperm.nodup_iff.mpr (List.nodup_dedup _)
  refine ⟨?_, hnd, ?_⟩
  · intro x
    rw [allIP, hperm.mem_iff, List.mem_dedup, List.mem_flatten]
    simp
  · exact ((sortStrings_pairwise _).and hnd).imp fun h => strLt_of_le_of_ne _ _ h.1 h.2

/-- C2 witness: the union set of a concrete round, both by evaluation and
through the theorem. -/
theorem allIP_spec_witness :
    (allIP [⟨⟨"A", "1.1.1.1"⟩, ["9.9.9.9", "1.2.3.4"], none⟩,
            ⟨⟨"B", "2.2.2.2"⟩, ["1.2.3.4"], none⟩] = ["1.2.3.4", "9.9.9.9"]) ∧
    "9.9.9.9" ∈ allIP [⟨⟨"A", "1.1.1.1"⟩, ["9.9.9.9", "1.2.3.4"], none⟩,
            ⟨⟨"B", "2.2.2.2"⟩, ["1.2.3.4"], none⟩] := by
  refine ⟨by decide, ?_⟩
  refine ((allIP_spec [⟨⟨"A", "1.1.1.1"⟩, ["9.9.9.9", "1.2.3.4"], none⟩,
            ⟨⟨"B", "2.2.2.2"⟩, ["1.2.3.4"], none⟩]).1 "9.9.9.9").mpr ?_
  exact ⟨⟨⟨"A", "1.1.1.1"⟩, ["9.9.9.9", "1.2.3.4"], none⟩, by simp, by simp⟩

/-! ## Error categorization (`errToString`, ipre.go lines 279-320) -/

/-- `strings.ToLower` as ipre.go uses it (ASCII error text): lower each character. -/
def strToLower (s : String) : String := String.mk (s.toList.map Char.toLower)

/-- Whether the first character list is a prefix of the second. -/
def hasPre : List Char → List Char → Bool
  | [], _ => true
  | _ :: _, [] => false
  | a :: as, b :: bs => a == b && hasPre as bs

/-- Whether the first character list occurs inside the second
(`strings.Contains` on the characters). -/
def subIn : List Char → List Char → Bool
  | sub, [] => hasPre sub []
  | sub, b :: bs => hasPre sub (b :: bs) || subIn sub bs

/-- The local `f` of ipre.go lines 284-286:
`strings.Contains(strings.ToLower(str), substr)` — the error text is lowered,
the needle is already lowercase. -/
def containsLower (str substr : String) : Bool :=
  subIn substr.toList (strToLower str).toList

/-- ipre.go lines 279-320, `errToString`: the short error category, first
matching rule winning; an absent error (Go `err == nil`) gives `""`. -/
def errToString : Option String → String
  | none => ""
  | some s =>
    if containsLower s "timeout" then "Timeout"
    else if containsLower s "refused the network connection" then "Conn refused"
    else if containsLower s "no service is operating" then "NS invalid"
    else if containsLower s "forcibly closed by the remote host" then "NS invalid"
    else if containsLower s "no result" then "No result"
    else "Connect error"

/-- C4: `errToString` is a function (hence deterministic) that evaluates its
case-insensitive substring rules in a fixed order with first match winning:
timeout, connection refused, the two NS-invalid phrases, no result, and a
generic fallback; in particular a message containing both the timeout and the
no-service phrases is mapped to `Timeout`. -/
theorem errToString_rules (s : String) :
    (containsLower s "timeout" = true → errToString (some s) = "Timeout") ∧
    (containsLower s "timeout" = false →
      containsLower s "refused the network connection" = true →
      errToString (some s) = "Conn refused") ∧
    (containsLower s "timeout" = false →
      containsLower s "refused the network connection" = false →
      containsLower s "no service is operating" = true →
      errToString (some s) = "NS invalid") ∧
    (containsLower s "timeout" = false →
      containsLower s "refused the network connection" = false →
      containsLower s "no service is operating" = false →
      containsLower s "forcibly closed by the remote host" = true →
      errToString (some s) = "NS invalid") ∧
    (containsLower s "timeout" = false →
      containsLower s "refused the network connection" = false →
      containsLower s "no service is operating" = false →
      containsLower s "forcibly closed by the remote host" = false →
      containsLower s "no result" = true →
      errToString (some s) = "No result") ∧
    (containsLower s "timeout" = false →
      containsLower s "refused the network connection" = false →
      containsLower s "no service is operating" = false →
      containsLower s "forcibly closed by the remote host" = false →
      containsLower s "no result" = false →
      errToString (some s) = "Connect error") ∧
    errToString (some "WSARecv udp: i/o timeout. No service is operating here") = "Timeout" := by
  refine ⟨fun h1 => by simp [errToString, h1],
    fun h1 h2 => by simp [errToString, h1, h2],
    fun h1 h2 h3 => by simp [errToString, h1, h2, h3],
    fun h1 h2 h3 h4 => by simp [errToString, h1, h2, h3, h4],
    fun h1 h2 h3 h4 h5 => by simp [errToString, h1, h2, h3, h4, h5],
    fun h1 h2 h3 h4 h5 => by simp [errToString, h1, h2, h3, h4, h5],
    by decide⟩

/-- C4 witness: the rules applied at concrete error texts. -/
theorem errToString_rules_witness :
    errToString (some "dial tcp 8.8.8.8:53: ConnectEx tcp: i/o timeout") = "Timeout" ∧
    errToString (some "some novel failure text") = "Connect error" := by
  constructor
  · exact (errToString_rules "dial tcp 8.8.8.8:53: ConnectEx tcp: i/o timeout").1 (by decide)
  · exact (errToString_rules "some novel failure text").2.2.2.2.2.1
      (by decide) (by decide) (by decide) (by decide) (by decide)

/-! ## Table output (`output`, ipre.go lines 178-242)

`output` fills a flat cell array `ip` of `len(a) * resultNum` strings (index
`j*len(a)+i` is row `j`, column `i`) initialized to `"-"`, then prints it in
chunks of `len(a)` cells per line, each cell through `%-17s`; the two header
lines print through `%-17.16s` and a rule of `17*len(a)` dashes separates
them from the body. The mutable array is modelled as a function `Nat → String`
with pointwise update `upd`; the printed lines are the rows read back from it. -/

/-- Left-justified padding to width `w` (the padding half of `%-17s`/`%-17.16s`):
fill with spaces on the right, never truncate. -/
def leftJust (w : Nat) (s : String) : String :=
  s ++ String.mk (List.replicate (w - s.length) ' ')

/-- A header cell, `fmt.Printf("%-17.16s", item)` (line 228): truncate to 16
characters, pad to 17. -/
def fmtHeadCell (s : String) : String := leftJust 17 (String.mk (s.toList.take 16))

/-- A body cell, `fmt.Printf("%-17s", item)` (line 237): pad to 17. -/
def fmtCell (s : String) : String := leftJust 17 s

/-- ipre.go lines 167-174, `in`: linear membership scan. -/
def inIPs (ip : String) : List String → Bool
  | [] => false
  | i :: rest => if i = ip then true else inIPs ip rest

/-- One array store `arr[k] = v`, on the array-as-function. -/
def upd (arr : Nat → String) (k : Nat) (v : String) : Nat → String :=
  fun x => if x = k then v else arr x

/-- The inner loop of `output` (lines 214-218) for one error-free server `i`:
for each `j` of `l`, store `allip[j]` at `j*n+i` when the server's ips contain
it. -/
def fillIP (n i : Nat) (A ips : List String) (l : List Nat) (arr : Nat → String) :
    Nat → String :=
  l.foldl
    (fun acc j => if inIPs (A.getD j "") ips then upd acc (j * n + i) (A.getD j "") else acc)
    arr

/-- The loop body of lines 209-222 for server `i`: union-based placement when
the answer has no error, else its short error category at row 0 (`ip[i]`). -/
def fillServer (n : Nat) (A : List String) (i : Nat) (item : Answer)
    (arr : Nat → String) : Nat → String :=
  match item.error with
  | none => fillIP n i A item.ip (List.range A.length) arr
  | some e => upd arr i (errToString (some e))

/-- The whole fill loop of lines 209-222, server `k` first. -/
def fillAnswers (n : Nat) (A : List String) : Nat → List Answer → (Nat → String) →
    Nat → String
  | _, [], arr => arr
  | k, item :: rest, arr => fillAnswers n A (k + 1) rest (fillServer n A k item arr)

/-- The final content of the flat `ip` cell array of `output` (lines 201-222):
start from all `"-"` (lines 204-206), then run the fill loop. -/
def ipCells (a : List Answer) : Nat → String :=
  fillAnswers a.length (allIP a) 0 a (fun _ => "-")

/-- `resultNum` of lines 182-185: number of body rows, at least one. -/
def resultNum (a : List Answer) : Nat :=
  if (allIP a).length = 0 then 1 else (allIP a).length

/-- The two header lines (lines 209-211 and 227-232): names then addresses,
each cell through `%-17.16s`. -/
def headRows (a : List Answer) : List (List String) :=
  [a.map (fun x => fmtHeadCell x.dnsAddr.name),
   a.map (fun x => fmtHeadCell x.dnsAddr.address)]

/-- The horizontal rule of line 234: `strings.Repeat("-", 17*len(a))`. -/
def hrule (a : List Answer) : String := String.mk (List.replicate (17 * a.length) '-')

/-- The printed body lines (lines 236-241): the flat cell array in chunks of
`len(a)` cells, row `j` holding cells `j*len(a)` to `j*len(a)+len(a)-1`, each
through `%-17s`. -/
def bodyRows (a : List Answer) : List (List String) :=
  (List.range (resultNum a)).map fun j =>
    (List.range a.length).map fun i => fmtCell (ipCells a (j * a.length + i))

theorem leftJust_length (w : Nat) (s : String) (h : s.length ≤ w) :
    (leftJust w s).length = w := by
  simp only [leftJust, String.length_append]
  have hm : (String.mk (List.replicate (w - s.length) ' ')).length = w - s.length := by
    show (List.replicate (w - s.length) ' ').length = w - s.length
    simp
  omega

theorem fmtHeadCell_length (s : String) : (fmtHeadCell s).length = 17 := by
  apply leftJust_length
  show (s.toList.take 16).length ≤ 17
  simp only [List.length_take]
  omega

theorem fmtCell_length (s : String) (h : s.length ≤ 17) : (fmtCell s).length = 17 :=
  leftJust_length 17 s h

theorem errToString_length (o : Option String) : (errToString o).length ≤ 17 := by
  cases o with
  | none => decide
  | some s =>
    simp only [errToString]
    repeat' split
    all_goals decide

theorem reprByte_length : ∀ b : Fin 256, (Nat.repr b.val).length ≤ 3 := by decide

theorem ipv4String_length (b1 b2 b3 b4 : Fin 256) : (ipv4String b1 b2 b3 b4).length ≤ 15 := by
  have h1 := reprByte_length b1
  have h2 := reprByte_length b2
  have h3 := reprByte_length b3
  have h4 := reprByte_length b4
  have hdot : ("." : String).length = 1 := rfl
  simp only [ipv4String, String.length_append, hdot]
  omega

theorem extractA_mem : ∀ (rrs : List RR) (x : String), x ∈ extractA rrs →
    ∃ b1 b2 b3 b4, x = ipv4String b1 b2 b3 b4
  | [], x, h => absurd h (List.not_mem_nil x)
  | RR.A b1 b2 b3 b4 :: rest, x, h => by
    rcases List.mem_cons.mp h with rfl | h'
    · exact ⟨b1, b2, b3, b4, rfl⟩
    · exact extractA_mem rest x h'
  | RR.other :: rest, x, h => extractA_mem rest x h

theorem ARecords_ok_length (ex : Exchange) (domain nameserver : String) (port : Nat)
    (net : String) (ips : List String)
    (h : ARecords ex domain nameserver port net = Except.ok ips) :
    ∀ x ∈ ips, x.length ≤ 17 := by
  intro x hx
  unfold ARecords at h
  split at h
  · exact absurd h (by simp)
  · rcases hex : ex net domain (nameserver ++ ":" ++ Nat.repr port) with e | rrs
    · rw [hex] at h
      exact absurd h (by simp)
    · rw [hex] at h
      simp only [Except.ok.injEq] at h
      subst h
      obtain ⟨b1, b2, b3, b4, rfl⟩ := extractA_mem rrs x hx
      exact le_trans (ipv4String_length b1 b2 b3 b4) (by omega)

theorem query_ip_length (ex : Exchange) (dns : List DnsAddr) (domain net : String) :
    ∀ ans ∈ query ex dns domain net, ∀ x ∈ ans.ip, x.length ≤ 17 := by
  intro ans hans x hx
  simp only [query, List.mem_map] at hans
  obtain ⟨d, -, rfl⟩ := hans
  rcases hAR : ARecords ex domain d.address 53 net with e | ips
  · simp [mkAnswer, hAR] at hx
  · simp only [mkAnswer, hAR] at hx
    split at hx
    · exact absurd hx (List.not_mem_nil x)
    · exact ARecords_ok_length ex domain d.address 53 net ips hAR x hx

/-- Every string of the union set of `a` is one of the results' IPs. -/
theorem mem_allIP (a : List Answer) (x : String) :
    x ∈ allIP a ↔ ∃ r ∈ a, x ∈ r.ip := by
  rw [allIP, (sortStrings_perm _).mem_iff, List.mem_dedup, List.mem_flatten]
  simp

theorem allIP_length_le (a : List Answer) (hip : ∀ ans ∈ a, ∀ x ∈ ans.ip, x.length ≤ 17) :
    ∀ x ∈ allIP a, x.length ≤ 17 := by
  intro x hx
  obtain ⟨r, hr, hxr⟩ := (mem_allIP a x).mp hx
  exact hip r hr x hxr

theorem fillIP_inv (n i : Nat) (A ips : List String) (hA : ∀ x ∈ A, x.length ≤ 17) :
    ∀ (l : List Nat) (arr : Nat → String), (∀ k, (arr k).length ≤ 17) →
      ∀ k, ((fillIP n i A ips l arr) k).length ≤ 17
  | [], arr, harr, k => harr k
  | j :: l, arr, harr, k => by
    simp only [fillIP, List.foldl_cons]
    refine fillIP_inv n i A ips hA l _ (fun k2 => ?_) k
    by_cases hc : inIPs (A.getD j "") ips = true
    · simp only [hc, if_true, upd]
      split
      · rcases Nat.lt_or_ge j A.length with hj | hj
        · rw [List.getD_eq_getElem _ _ hj]
          exact hA _ (List.getElem_mem hj)
        · rw [List.getD_eq_default _ _ hj]
          decide
      · exact harr k2
    · simp only [hc, if_false]
      exact harr k2

theorem fillServer_inv (n : Nat) (A : List String) (i : Nat) (item : Answer)
    (arr : Nat → String) (hA : ∀ x ∈ A, x.length ≤ 17)
    (harr : ∀ k, (arr k).length ≤ 17) :
    ∀ k, ((fillServer n A i item arr) k).length ≤ 17 := by
  intro k
  unfold fillServer
  cases item.error with
  | none => exact fillIP_inv n i A item.ip hA (List.range A.length) arr harr k
  | some e =>
    simp only [upd]
    split
    · exact errToString_length (some e)
    · exact harr k

theorem fillAnswers_inv (n : Nat) (A : List String) (hA : ∀ x ∈ A, x.length ≤ 17) :
    ∀ (l : List Answer) (k0 : Nat) (arr : Nat → String), (∀ k, (arr k).length ≤ 17) →
      ∀ k, ((fillAnswers n A k0 l arr) k).length ≤ 17
  | [], _, arr, harr, k => harr k
  | item :: rest, k0, arr, harr, k => by
    simp only [fillAnswers]
    exact fillAnswers_inv n A hA rest (k0 + 1) _
      (fillServer_inv n A k0 item arr hA harr) k

theorem ipCells_length_le (a : List Answer)
    (hip : ∀ ans ∈ a, ∀ x ∈ ans.ip, x.length ≤ 17) :
    ∀ k, (ipCells a k).length ≤ 17 := by
  refine fillAnswers_inv a.length (allIP a) (allIP_length_le a hip) a 0 _ (fun k => ?_)
  decide

theorem resultNum_eq_max (a : List Answer) : resultNum a = max 1 (allIP a).length := by
  unfold resultNum
  split <;> omega

/-- C5: for a fan-out round over `N` servers, the table body has exactly
`max(1, |union set|)` rows of exactly `N` cells each, every body cell and
header cell is printed exactly 17 characters wide (header content first
truncated to at most 16 characters), and the rule is `17*N` dashes. -/
theorem output_dimensions (ex : Exchange) (dns : List DnsAddr) (domain net : String) :
    (bodyRows (query ex dns domain net)).length =
        max 1 (allIP (query ex dns domain net)).length ∧
    (∀ row ∈ bodyRows (query ex dns domain net),
        row.length = dns.length ∧ ∀ c ∈ row, c.length = 17) ∧
    (headRows (query ex dns domain net)).length = 2 ∧
    (∀ row ∈ headRows (query ex dns domain net),
        row.length = dns.length ∧ ∀ c ∈ row, c.length = 17) ∧
    (∀ s : String, fmtHeadCell s = leftJust 17 (String.mk (s.toList.take 16)) ∧
        (String.mk (s.toList.take 16)).length ≤ 16) ∧
    (hrule (query ex dns domain net)).length = 17 * dns.length := by
  refine ⟨?_, ?_, rfl, ?_, ?_, ?_⟩
  · rw [← resultNum_eq_max]
    simp [bodyRows]
  · intro row hrow
    simp only [bodyRows, List.mem_map, List.mem_range] at hrow
    obtain ⟨j, -, rfl⟩ := hrow
    constructor
    · simp [query_len]
    · intro c hc
      simp only [List.mem_map, List.mem_range] at hc
      obtain ⟨i, -, rfl⟩ := hc
      exact fmtCell_length _
        (ipCells_length_le _ (query_ip_length ex dns domain net) _)
  · intro row hrow
    simp only [headRows, List.mem_cons, List.mem_singleton] at hrow
    rcases hrow with rfl | rfl | h
    · exact ⟨by simp [query_len], fun c hc => by
        obtain ⟨x, -, rfl⟩ := List.mem_map.mp hc
        exact fmtHeadCell_length _⟩
    · exact ⟨by simp [query_len], fun c hc => by
        obtain ⟨x, -, rfl⟩ := List.mem_map.mp hc
        exact fmtHeadCell_length _⟩
    · exact absurd h (List.not_mem_nil row)
  · intro s
    refine ⟨rfl, ?_⟩
    show (s.toList.take 16).length ≤ 16
    simp [List.length_take]
  · show (List.replicate (17 * (query ex dns domain net).length) '-').length = 17 * dns.length
    simp [query_len]

/-- C5 witness: the dimensions of a concrete round. -/
theorem output_dimensions_witness :
    (bodyRows (query (fun _ _ _ => Except.ok [RR.A 93 184 216 34])
        [⟨"AliDNS", "223.5.5.5"⟩, ⟨"Google", "8.8.8.8"⟩] "example.com" "udp")).length = 1 := by
  have h := (output_dimensions (fun _ _ _ => Except.ok [RR.A 93 184 216 34])
    [⟨"AliDNS", "223.5.5.5"⟩, ⟨"Google", "8.8.8.8"⟩] "example.com" "udp").1
  rw [h]
  decide

/-! ### Positional characterization of the body cells -/

/-- The `Answer` zero value (only used as an out-of-range default). -/
def dummyAnswer : Answer := ⟨⟨"", ""⟩, [], none⟩

/-- Whether the fill loop for a server writes the body cell at row `j` of its
own column, and the value it writes: an error writes its category at row 0
only; an error-free answer writes `allip[j]` when its ips contain it. -/
def cellWrite (A : List String) (item : Answer) (j : Nat) : Option String :=
  match item.error with
  | some e => if j = 0 then some (errToString (some e)) else none
  | none =>
    if j < A.length ∧ inIPs (A.getD j "") item.ip = true then some (A.getD j "") else none

theorem slot_inj (n i i' j j' : Nat) (hi : i < n) (hi' : i' < n)
    (h : j * n + i = j' * n + i') : i = i' ∧ j = j' := by
  have hn : 0 < n := Nat.lt_of_le_of_lt (Nat.zero_le i) hi
  have h1 : (j * n + i) % n = i % n := by
    rw [Nat.add_comm, Nat.add_mul_mod_self_right]
  have h2 : (j' * n + i') % n = i' % n := by
    rw [Nat.add_comm, Nat.add_mul_mod_self_right]
  have hii : i = i' := by
    rw [← Nat.mod_eq_of_lt hi, ← Nat.mod_eq_of_lt hi', ← h1, ← h2, h]
  refine ⟨hii, ?_⟩
  subst hii
  have hjj : j * n = j' * n := by omega
  exact Nat.eq_of_mul_eq_mul_right hn hjj

theorem upd_self (arr : Nat → String) (k : Nat) (v : String) : upd arr k v k = v := by
  simp [upd]

theorem upd_other (arr : Nat → String) (k : Nat) (v : String) (x : Nat) (h : x ≠ k) :
    upd arr k v x = arr x := by
  simp [upd, h]

theorem fillIP_cons (n i : Nat) (A ips : List String) (j' : Nat) (l : List Nat)
    (arr : Nat → String) :
    fillIP n i A ips (j' :: l) arr =
      fillIP n i A ips l
        (if inIPs (A.getD j' "") ips then upd arr (j' * n + i) (A.getD j' "") else arr) := rfl

theorem fillIP_other (n i i' : Nat) (A ips : List String) (hi : i < n) (hi' : i' < n)
    (hne : i' ≠ i) :
    ∀ (l : List Nat) (arr : Nat → String) (j : Nat),
      fillIP n i' A ips l arr (j * n + i) = arr (j * n + i)
  | [], _, _ => rfl
  | j' :: l, arr, j => by
    rw [fillIP_cons, fillIP_other n i i' A ips hi hi' hne l _ j]
    by_cases hc : inIPs (A.getD j' "") ips = true
    · rw [if_pos hc]
      exact upd_other arr _ _ _ (fun heq => hne (slot_inj n i i' j j' hi hi' heq).1.symm)
    · rw [if_neg hc]

theorem fillIP_eval (n i : Nat) (A ips : List String) (hi : i < n) :
    ∀ (l : List Nat) (arr : Nat → String) (j : Nat),
      fillIP n i A ips l arr (j * n + i) =
        if j ∈ l ∧ inIPs (A.getD j "") ips = true then A.getD j ""
        else arr (j * n + i)
  | [], arr, j => by simp [fillIP]
  | j' :: l, arr, j => by
    rw [fillIP_cons, fillIP_eval n i A ips hi l _ j]
    by_cases hjj : j = j'
    · subst hjj
      by_cases hc : inIPs (A.getD j "") ips = true
      · by_cases hjl : j ∈ l
        · rw [if_pos ⟨hjl, hc⟩, if_pos ⟨List.mem_cons_self j l, hc⟩]
        · rw [if_neg (fun h => hjl h.1), if_pos hc,
            if_pos ⟨List.mem_cons_self j l, hc⟩, upd_self]
      · rw [if_neg hc, if_neg (fun h => hc h.2), if_neg (fun h => hc h.2)]
    · have hpos : j * n + i ≠ j' * n + i :=
        fun heq => hjj (slot_inj n i i j j' hi hi heq).2
      have hmem : (j ∈ j' :: l) ↔ (j ∈ l) := by
        constructor
        · intro h
          rcases List.mem_cons.mp h with h1 | h1
          · exact absurd h1 hjj
          · exact h1
        · exact fun h => List.mem_cons_of_mem j' h
      by_cases hc2 : j ∈ l ∧ inIPs (A.getD j "") ips = true
      · rw [if_pos hc2, if_pos ⟨hmem.mpr hc2.1, hc2.2⟩]
      · by_cases hc : inIPs (A.getD j' "") ips = true
        · rw [if_pos hc, upd_other arr _ _ _ hpos, if_neg hc2,
            if_neg (fun h => hc2 ⟨hmem.mp h.1, h.2⟩)]
        · rw [if_neg hc, if_neg hc2, if_neg (fun h => hc2 ⟨hmem.mp h.1, h.2⟩)]

theorem fillServer_other (n : Nat) (A : List String) (i i' : Nat) (item : Answer)
    (arr : Nat → String) (j : Nat) (hi : i < n) (hi' : i' < n) (hne : i' ≠ i) :
    fillServer n A i' item arr (j * n + i) = arr (j * n + i) := by
  unfold fillServer
  cases item.error with
  | none => exact fillIP_other n i i' A item.ip hi hi' hne (List.range A.length) arr j
  | some e =>
    refine upd_other arr _ _ _ (fun heq => ?_)
    have h0 : j * n + i = 0 * n + i' := by simpa using heq
    exact hne (slot_inj n i i' j 0 hi hi' h0).1.symm

theorem cellWrite_some (A : List String) (item : Answer) (e : String) (j : Nat)
    (he : item.error = some e) :
    cellWrite A item j = if j = 0 then some (errToString (some e)) else none := by
  unfold cellWrite
  rw [he]

theorem cellWrite_none (A : List String) (item : Answer) (j : Nat)
    (he : item.error = none) :
    cellWrite A item j =
      if j < A.length ∧ inIPs (A.getD j "") item.ip = true then some (A.getD j "")
      else none := by
  unfold cellWrite
  rw [he]

theorem fillServer_some (n : Nat) (A : List String) (i : Nat) (item : Answer)
    (arr : Nat → String) (e : String) (he : item.error = some e) :
    fillServer n A i item arr = upd arr i (errToString (some e)) := by
  unfold fillServer
  rw [he]

theorem fillServer_none (n : Nat) (A : List String) (i : Nat) (item : Answer)
    (arr : Nat → String) (he : item.error = none) :
    fillServer n A i item arr = fillIP n i A item.ip (List.range A.length) arr := by
  unfold fillServer
  rw [he]

theorem fillServer_eval (n : Nat) (A : List String) (i : Nat) (item : Answer)
    (arr : Nat → String) (j : Nat) (hi : i < n) :
    fillServer n A i item arr (j * n + i) =
      (cellWrite A item j).getD (arr (j * n + i)) := by
  rcases herr : item.error with _ | e
  · rw [fillServer_none n A i item arr herr, cellWrite_none A item j herr]
    rw [fillIP_eval n i A item.ip hi (List.range A.length) arr j]
    by_cases hc : j < A.length ∧ inIPs (A.getD j "") item.ip = true
    · rw [if_pos ⟨List.mem_range.mpr hc.1, hc.2⟩, if_pos hc, Option.getD_some]
    · rw [if_neg (fun h => hc ⟨List.mem_range.mp h.1, h.2⟩), if_neg hc, Option.getD_none]
  · rw [fillServer_some n A i item arr e herr, cellWrite_some A item e j herr]
    by_cases hj : j = 0
    · subst hj
      rw [if_pos rfl, Option.getD_some]
      simpa using upd_self arr i (errToString (some e))
    · have hne : j * n + i ≠ i :=
        fun heq => hj (slot_inj n i i j 0 hi hi (by simpa using heq)).2
      rw [if_neg hj, Option.getD_none]
      exact upd_other arr _ _ _ hne

theorem fillAnswers_skip (n : Nat) (A : List String) :
    ∀ (l : List Answer) (k : Nat) (arr : Nat → String) (i j : Nat),
      k + l.length ≤ n → i < n → (i < k ∨ k + l.length ≤ i) →
      fillAnswers n A k l arr (j * n + i) = arr (j * n + i)
  | [], _, _, _, _, _, _, _ => rfl
  | item :: rest, k, arr, i, j, hlen, hi, hrange => by
    simp only [List.length_cons] at hlen hrange
    show fillAnswers n A (k + 1) rest (fillServer n A k item arr) (j * n + i) = _
    rw [fillAnswers_skip n A rest (k + 1) _ i j (by omega) hi (by omega)]
    exact fillServer_other n A i k item arr j hi (by omega) (by omega)

theorem fillAnswers_eval (n : Nat) (A : List String) :
    ∀ (l : List Answer) (k : Nat) (arr : Nat → String) (i j : Nat),
      k + l.length ≤ n → i < n → k ≤ i → i < k + l.length →
      fillAnswers n A k l arr (j * n + i) =
        (cellWrite A (l.getD (i - k) dummyAnswer) j).getD (arr (j * n + i))
  | [], k, arr, i, j, _, _, hk, hik => by
    simp only [List.length_nil] at hik
    omega
  | item :: rest, k, arr, i, j, hlen, hi, hk, hik => by
    simp only [List.length_cons] at hlen hik
    show fillAnswers n A (k + 1) rest (fillServer n A k item arr) (j * n + i) = _
    by_cases hki : k = i
    · have hik0 : i - k = 0 := by omega
      rw [fillAnswers_skip n A rest (k + 1) _ i j (by omega) hi (by omega), hik0,
        List.getD_cons_zero, hki]
      exact fillServer_eval n A i item arr j hi
    · have hk1 : k + 1 ≤ i := by omega
      rw [fillAnswers_eval n A rest (k + 1) _ i j (by omega) hi hk1 (by omega)]
      rw [fillServer_other n A i k item arr j hi (by omega) (by omega)]
      have hidx : i - k = (i - (k + 1)) + 1 := by omega
      rw [hidx, List.getD_cons_succ]

theorem ipCells_char (a : List Answer) (i j : Nat) (hi : i < a.length) :
    ipCells a (j * a.length + i) =
      (cellWrite (allIP a) (a.getD i dummyAnswer) j).getD "-" := by
  unfold ipCells
  rw [fillAnswers_eval a.length (allIP a) a 0 _ i j (by omega) hi (Nat.zero_le i) (by omega)]
  simp

theorem inIPs_iff (x : String) : ∀ l : List String, inIPs x l = true ↔ x ∈ l
  | [] => by simp [inIPs]
  | y :: ys => by
    simp only [inIPs]
    by_cases h : y = x
    · subst h
      simp
    · have hxy : x ≠ y := fun heq => h heq.symm
      simp only [h, if_false]
      rw [inIPs_iff x ys]
      simp [List.mem_cons, hxy]

/-- C6: in the table body, a server whose result carries an error shows its
short error category in its own column at row 0 only — every other row of that
column stays `"-"` — and an error-free server's cell at row `j` is the `j`-th
union IP exactly when that server's ips contain it, else `"-"`. -/
theorem output_error_and_union_cells (a : List Answer) (i : Nat) (hi : i < a.length) :
    (∀ e, (a.getD i dummyAnswer).error = some e →
        ipCells a (0 * a.length + i) = errToString (some e) ∧
        ∀ j, j ≠ 0 → ipCells a (j * a.length + i) = "-") ∧
    ((a.getD i dummyAnswer).error = none →
        ∀ (j : Nat), j < (allIP a).length →
          ipCells a (j * a.length + i) =
            if (allIP a).getD j "" ∈ (a.getD i dummyAnswer).ip then (allIP a).getD j ""
            else "-") := by
  constructor
  · intro e he
    refine ⟨?_, fun j hj => ?_⟩
    · rw [ipCells_char a i 0 hi, cellWrite_some _ _ _ _ he, if_pos rfl, Option.getD_some]
    · rw [ipCells_char a i j hi, cellWrite_some _ _ _ _ he, if_neg hj, Option.getD_none]
  · intro he j hj
    rw [ipCells_char a i j hi, cellWrite_none _ _ _ he]
    by_cases hmem : (allIP a).getD j "" ∈ (a.getD i dummyAnswer).ip
    · rw [if_pos ⟨hj, (inIPs_iff _ _).mpr hmem⟩, Option.getD_some, if_pos hmem]
    · rw [if_neg (fun h => hmem ((inIPs_iff _ _).mp h.2)), Option.getD_none, if_neg hmem]

/-- C6 witness: a two-server round, server B erroring, server A resolving
`9.9.9.9`: B's column shows `Timeout` at row 0 and nothing else; A's column
carries the union IP. -/
theorem output_error_and_union_cells_witness :
    ipCells [⟨⟨"A", "1.1.1.1"⟩, ["9.9.9.9"], none⟩,
             ⟨⟨"B", "2.2.2.2"⟩, [], some "i/o timeout"⟩] (0 * 2 + 1) = "Timeout" ∧
    ipCells [⟨⟨"A", "1.1.1.1"⟩, ["9.9.9.9"], none⟩,
             ⟨⟨"B", "2.2.2.2"⟩, [], some "i/o timeout"⟩] (1 * 2 + 1) = "-" ∧
    ipCells [⟨⟨"A", "1.1.1.1"⟩, ["9.9.9.9"], none⟩,
             ⟨⟨"B", "2.2.2.2"⟩, [], some "i/o timeout"⟩] (0 * 2 + 0) = "9.9.9.9" := by
  have hB := output_error_and_union_cells
    [⟨⟨"A", "1.1.1.1"⟩, ["9.9.9.9"], none⟩, ⟨⟨"B", "2.2.2.2"⟩, [], some "i/o timeout"⟩]
    1 (by decide)
  have hA := output_error_and_union_cells
    [⟨⟨"A", "1.1.1.1"⟩, ["9.9.9.9"], none⟩, ⟨⟨"B", "2.2.2.2"⟩, [], some "i/o timeout"⟩]
    0 (by decide)
  refine ⟨(hB.1 "i/o timeout" rfl).1.trans (by decide),
    (hB.1 "i/o timeout" rfl).2 1 (by decide), ?_⟩
  exact (hA.2 rfl 0 (by decide)).trans (by decide)

/-! ## JSON output (`outputJson`, ipre.go lines 37-43 and 258-275) -/

/-- ipre.go lines 37-43, `AnswerJson { DnsAddr; IP []string; Error string }`. -/
structure AnswerJson where
  dnsAddr : DnsAddr
  ip : List String
  error : String
  deriving DecidableEq

/-- The loop body of `outputJson` (lines 261-267): copy the server and IPs,
render the error as its text, `""` when there is none (the Go zero value). -/
def answerToJson (item : Answer) : AnswerJson :=
  { dnsAddr := item.dnsAddr, ip := item.ip,
    error := match item.error with
             | some e => e
             | none => "" }

/-- ipre.go lines 258-275, `outputJson`: the record list handed to
`json.Marshal`, one record per answer. -/
def outputJson (a : List Answer) : List AnswerJson := a.map answerToJson

/-- The JSON values that can appear in a marshalled `AnswerJson` field. -/
inductive JValue where
  | str (s : String)
  | arr (elems : List String)
  | null
  deriving DecidableEq

/-- Modelled from encoding/json's documented behaviour on `AnswerJson`
(ipre.go lines 37-43): the embedded `DnsAddr` flattens to fields `Name` and
`Address`; the struct has no tags, so no field is ever omitted, and a nil
`IP` slice — which in this program coincides with an empty one, `query` only
assigns non-empty slices — marshals as JSON `null`, a non-empty one as the
string array; `Error` is always present as a string, empty on success. -/
def marshalAnswerJson (aj : AnswerJson) : List (String × JValue) :=
  [("Name", JValue.str aj.dnsAddr.name),
   ("Address", JValue.str aj.dnsAddr.address),
   ("IP", if aj.ip.isEmpty then JValue.null else JValue.arr aj.ip),
   ("Error", JValue.str aj.error)]

/-- The marshalled record list: one JSON object per server. -/
def marshalAnswersJson (l : List AnswerJson) : List (List (String × JValue)) :=
  l.map marshalAnswerJson

/-- A JSON consumer reading one marshalled record back into answer data:
`null` or a missing array reads as no IPs, an empty error string as success. -/
def parseAnswerJson (fields : List (String × JValue)) : Option Answer :=
  match fields.lookup "Name", fields.lookup "Address",
      fields.lookup "IP", fields.lookup "Error" with
  | some (JValue.str n), some (JValue.str ad), some ipv, some (JValue.str er) =>
    some { dnsAddr := ⟨n, ad⟩,
           ip := match ipv with
                 | JValue.null => []
                 | JValue.arr l => l
                 | JValue.str _ => [],
           error := if er = "" then none else some er }
  | _, _, _, _ => none

/-- C8 counterexample: for a server that returned no IPs, the serialized
record still carries the `IP` field — with value `null`, not absent (the
struct has no `omitempty` tag). -/
theorem outputJson_ip_not_absent :
    marshalAnswersJson (outputJson [⟨⟨"Google", "8.8.8.8"⟩, [], some "i/o timeout"⟩]) =
      [[("Name", JValue.str "Google"), ("Address", JValue.str "8.8.8.8"),
        ("IP", JValue.null), ("Error", JValue.str "i/o timeout")]] ∧
    (marshalAnswerJson (answerToJson ⟨⟨"Google", "8.8.8.8"⟩, [], some "i/o timeout"⟩)).lookup
      "IP" = some JValue.null :=
  ⟨rfl, rfl⟩

theorem parse_marshal (ans : Answer) (h : ans.error ≠ some "") :
    parseAnswerJson (marshalAnswerJson (answerToJson ans)) = some ans := by
  rcases ans with ⟨⟨n, ad⟩, ip, err⟩
  rcases err with _ | e
  · cases ip with
    | nil => rfl
    | cons x rest => rfl
  · have he : e ≠ "" := fun heq => h (by simp [heq])
    cases ip with
    | nil => simp [answerToJson, marshalAnswerJson, parseAnswerJson, List.lookup, he]
    | cons x rest => simp [answerToJson, marshalAnswerJson, parseAnswerJson, List.lookup, he]

/-- C8 (amended): json output serializes one record per server with the
fields Name, Address, IP and Error, where IP is `null` — present, not absent —
when the server returned no IPs and the IP string array otherwise, and Error
is `""` on success and the full error text otherwise; parsing the output
reproduces the server/IP/error data of the originating result set whenever no
error text is itself the empty string. -/
theorem outputJson_round_trip (a : List Answer) (h : ∀ ans ∈ a, ans.error ≠ some "") :
    (marshalAnswersJson (outputJson a)).map parseAnswerJson = a.map some ∧
    (∀ ans ∈ a,
        (marshalAnswerJson (answerToJson ans)).lookup "Name" =
          some (JValue.str ans.dnsAddr.name) ∧
        (marshalAnswerJson (answerToJson ans)).lookup "Address" =
          some (JValue.str ans.dnsAddr.address) ∧
        (marshalAnswerJson (answerToJson ans)).lookup "IP" =
          some (if ans.ip = [] then JValue.null else JValue.arr ans.ip) ∧
        (marshalAnswerJson (answerToJson ans)).lookup "Error" =
          some (JValue.str (ans.error.getD ""))) := by
  constructor
  · unfold marshalAnswersJson outputJson
    rw [List.map_map, List.map_map]
    refine List.map_congr_left fun ans hans => ?_
    exact parse_marshal ans (h ans hans)
  · intro ans hans
    rcases ans with ⟨⟨n, ad⟩, ip, err⟩
    cases ip <;> cases err <;>
      simp [marshalAnswerJson, answerToJson, List.lookup]

/-- C8 witness: the amended round trip at a concrete two-server result set. -/
theorem outputJson_round_trip_witness :
    (marshalAnswersJson (outputJson
        [⟨⟨"Google", "8.8.8.8"⟩, ["1.2.3.4"], none⟩,
         ⟨⟨"AliDNS", "223.5.5.5"⟩, [], some "i/o timeout"⟩])).map parseAnswerJson =
      [some ⟨⟨"Google", "8.8.8.8"⟩, ["1.2.3.4"], none⟩,
       some ⟨⟨"AliDNS", "223.5.5.5"⟩, [], some "i/o timeout"⟩] := by
  have h := (outputJson_round_trip
    [⟨⟨"Google", "8.8.8.8"⟩, ["1.2.3.4"], none⟩,
     ⟨⟨"AliDNS", "223.5.5.5"⟩, [], some "i/o timeout"⟩] (by decide)).1
  exact h

/-! ## Configuration lookup (`readConfig`/`getDefaultConfig`,
ipre.go lines 398-434 and 451-490) -/

/-- ipre.go lines 45-49, `ReadConfigError { Path, Errmsg string; Exit bool }`. -/
structure ReadConfigError where
  path : String
  errmsg : String
  exit : Bool
  deriving DecidableEq

/-- `ReadConfigError.Error()` (lines 51-53). -/
def ReadConfigError.message (e : ReadConfigError) : String :=
  "Configuration file '" ++ e.path ++ "' load error: " ++ e.errmsg

/-- What the file system holds at a path, as far as `readConfig` inspects it:
missing, a directory, unreadable (with the read error's text), or readable
with `json.Unmarshal`'s resulting list — empty when the JSON is malformed,
since line 423 ignores the unmarshal error and line 425 only tests the
length. -/
inductive FileState where
  | notExist
  | dir
  | readErr (msg : String)
  | content (conf : List DnsAddr)
  deriving DecidableEq

/-- ipre.go lines 398-434, `readConfig`: a missing file is the one non-fatal
error (`Exit:false`); a directory, an unreadable file and a malformed or
empty list are fatal (`Exit:true`). -/
def readConfig (fs : String → FileState) (file : String) :
    Except ReadConfigError (List DnsAddr) :=
  match fs file with
  | FileState.notExist => Except.error ⟨file, "file does not exists", false⟩
  | FileState.dir => Except.error ⟨file, "file is directory", true⟩
  | FileState.readErr m => Except.error ⟨file, m, true⟩
  | FileState.content conf =>
    if conf.length = 0 then
      Except.error ⟨file,
        "file format is not correct, use '-s' to see a sample configuration", true⟩
    else Except.ok conf

/-- The loop of `getDefaultConfig` (lines 471-487) over the search paths: a
readable configuration returns with its path, an error with `Exit` set aborts
with that error's text, any other error tries the next path, and exhaustion
reports `Configuration file not found` (line 489). -/
def searchConfig (fs : String → FileState) :
    List String → Except String (List DnsAddr × String)
  | [] => Except.error "Configuration file not found"
  | p :: rest =>
    match readConfig fs p with
    | Except.ok conf => Except.ok (conf, p)
    | Except.error e => if e.exit then Except.error e.message else searchConfig fs rest

/-- The default search paths (lines 460-469) for a resolved home directory:
`.config/ipre.conf` and `.ipre` under it when it is non-empty, then
`/etc/ipre.conf` (`filepath.Join` modelled as `/`-separated concatenation). -/
def defaultPaths (home : String) : List String :=
  (if home ≠ "" then [home ++ "/.config/ipre.conf", home ++ "/.ipre"] else []) ++
    ["/etc/ipre.conf"]

/-- ipre.go lines 451-490, `getDefaultConfig`, for a resolved home directory. -/
def getDefaultConfig (fs : String → FileState) (home : String) :
    Except String (List DnsAddr × String) :=
  searchConfig fs (defaultPaths home)

/-- The default-configuration startup path of `main` (lines 547-553 and 587):
a configuration error exits before any query is issued; otherwise the fan-out
round runs on the loaded configuration. -/
def runDefault (fs : String → FileState) (home : String) (ex : Exchange)
    (domain net : String) : Except String (List Answer) :=
  match getDefaultConfig fs home with
  | Except.error msg => Except.error msg
  | Except.ok (conf, _) => Except.ok (query ex conf domain net)

theorem searchConfig_all_missing (fs : String → FileState) :
    ∀ paths : List String, (∀ q ∈ paths, fs q = FileState.notExist) →
      searchConfig fs paths = Except.error "Configuration file not found"
  | [], _ => rfl
  | p :: rest, h => by
    have hp := h p (List.mem_cons_self p rest)
    simp only [searchConfig, readConfig, hp]
    exact searchConfig_all_missing fs rest fun q hq => h q (List.mem_cons_of_mem p hq)

/-- C9: in the default-configuration lookup, a missing file at a search path
is non-fatal and the next path is tried, whereas a directory, an unreadable
file or a malformed/empty configuration aborts immediately with that error;
with the file missing at every default path the lookup fails with
`Configuration file not found`, and no query is issued — the startup outcome
is that error, for every exchange oracle. -/
theorem getDefaultConfig_spec (fs : String → FileState) (home : String)
    (p : String) (rest : List String) :
    (fs p = FileState.notExist → searchConfig fs (p :: rest) = searchConfig fs rest) ∧
    (fs p = FileState.dir →
        searchConfig fs (p :: rest) =
          Except.error (ReadConfigError.message ⟨p, "file is directory", true⟩)) ∧
    (∀ m, fs p = FileState.readErr m →
        searchConfig fs (p :: rest) =
          Except.error (ReadConfigError.message ⟨p, m, true⟩)) ∧
    (fs p = FileState.content [] →
        searchConfig fs (p :: rest) =
          Except.error (ReadConfigError.message
            ⟨p, "file format is not correct, use '-s' to see a sample configuration",
              true⟩)) ∧
    ((∀ q ∈ defaultPaths home, fs q = FileState.notExist) →
        getDefaultConfig fs home = Except.error "Configuration file not found" ∧
        ∀ (ex : Exchange) (domain net : String),
          runDefault fs home ex domain net =
            Except.error "Configuration file not found") := by
  refine ⟨fun h => ?_, fun h => ?_, fun m h => ?_, fun h => ?_, fun h => ?_⟩
  · simp only [searchConfig, readConfig, h]
    rfl
  · simp only [searchConfig, readConfig, h]
    rfl
  · simp only [searchConfig, readConfig, h]
    rfl
  · simp only [searchConfig, readConfig, h]
    rfl
  · have hs : getDefaultConfig fs home = Except.error "Configuration file not found" :=
      searchConfig_all_missing fs (defaultPaths home) h
    refine ⟨hs, fun ex domain net => ?_⟩
    simp only [runDefault, hs]

/-- C9 witness: with every path missing, lookup and startup fail with
`Configuration file not found` for a concrete oracle, with no query issued. -/
theorem getDefaultConfig_spec_witness :
    getDefaultConfig (fun _ => FileState.notExist) "/root" =
      Except.error "Configuration file not found" ∧
    runDefault (fun _ => FileState.notExist) "/root"
        (fun _ _ _ => Except.ok [RR.A 1 2 3 4]) "example.com" "udp" =
      Except.error "Configuration file not found" := by
  have h := (getDefaultConfig_spec (fun _ => FileState.notExist) "/root" "/x" []).2.2.2.2
    (fun q hq => rfl)
  exact ⟨h.1, h.2 (fun _ _ _ => Except.ok [RR.A 1 2 3 4]) "example.com" "udp"⟩

/-! ## Flat IP output (`outputNormal`, ipre.go lines 246-253) -/

/-- ipre.go lines 246-253, `outputNormal`: print the union set one IP per
line and nothing else — the printed lines are exactly `allIP`. -/
def outputNormal (a : List Answer) : List String := allIP a

/-- C10: when the union IP set is empty (every server errored or returned no
records), flat IP mode prints zero lines — no placeholder and no error
information — while table mode still produces its one body row. -/
theorem outputNormal_empty (a : List Answer) (h : allIP a = []) :
    outputNormal a = [] ∧ (bodyRows a).length = 1 := by
  refine ⟨h, ?_⟩
  simp [bodyRows, resultNum, h]

/-- C10 witness: a one-server round whose only answer errored. -/
theorem outputNormal_empty_witness :
    outputNormal [⟨⟨"G", "8.8.8.8"⟩, [], some "i/o timeout"⟩] = [] ∧
    (bodyRows [⟨⟨"G", "8.8.8.8"⟩, [], some "i/o timeout"⟩]).length = 1 :=
  outputNormal_empty [⟨⟨"G", "8.8.8.8"⟩, [], some "i/o timeout"⟩] (by decide)

end IPre
